import Mathlib

/-
Verification of the bounded-models field-handler registry.

Shallow embedding of src/bounded_models: the data model (field descriptors,
constraint markers, overrides), the field handlers (numeric, literal, enum,
nested model) and the registry operations (boundedness check, dimension
computation, sampling) are translated into executable Lean definitions.
Unit values and numeric bounds are modelled by rationals: the spec reasons
in exact real arithmetic and every claim under study concerns index or
interpolation arithmetic that is exact over the rationals.
-/

namespace BoundedModels

/-- Python values that can appear as literal members, enum members, defaults
and sampled results.  The constructor undef stands for the pydantic
PydanticUndefined sentinel (an unset default). -/
inductive Val where
  | undef : Val
  | num : ℚ → Val
  | vstr : String → Val
  | atom : Nat → Val
  | inst : List (String × Val) → Val

/-- Constraint markers attached to a field, mirroring the annotated_types
markers the handlers recognize: Ge, Gt, Le, Lt and MaxLen. -/
inductive Bound where
  | ge : ℚ → Bound
  | gt : ℚ → Bound
  | le : ℚ → Bound
  | lt : ℚ → Bound
  | maxLen : Nat → Bound

mutual
/-- Declared type of a field, as far as the handlers inspect it:
int, float, str, Literal with its ordered argument list, an Enum class
with its ordered member list, or a nested pydantic model with its ordered
field set. -/
inductive Ty where
  | tInt : Ty
  | tFloat : Ty
  | tStr : Ty
  | tLit : List Val → Ty
  | tEnum : List Val → Ty
  | tModel : Schema → Ty

/-- A pydantic FieldInfo as consumed by the handlers: declared type,
ordered constraint metadata, default value (Val.undef when unset) and
optional default factory.  A factory is modelled by the value it
produces. -/
inductive FieldInfo where
  | mk : Ty → List Bound → Val → Option Val → FieldInfo

/-- The ordered field set of a model class (model.model_fields):
name and FieldInfo per field, in declaration order. -/
inductive Schema where
  | nil : Schema
  | cons : String → FieldInfo → Schema → Schema
end

def FieldInfo.ann : FieldInfo → Ty
  | .mk a _ _ _ => a

def FieldInfo.md : FieldInfo → List Bound
  | .mk _ m _ _ => m

def FieldInfo.dflt : FieldInfo → Val
  | .mk _ _ d _ => d

def FieldInfo.dfac : FieldInfo → Option Val
  | .mk _ _ _ f => f

/-- FieldInfo.is_required: true iff the default is unset and there is no
default factory. -/
def FieldInfo.is_required : FieldInfo → Bool
  | .mk _ _ .undef none => true
  | _ => false

/-- Error outcomes of the registry operations, one constructor per distinct
Python exception path.  unboundedField and missingDefault model the
UnboundedFieldError / MissingDefaultError classes and carry the field name;
noHandler models the plain ValueError raised when no handler is capable;
valueErr models the ValueError for an empty literal or enum member list;
stopIter models the StopIteration escaping from next() on an exhausted
generator; unpackErr models the ValueError from unpacking an iterable of
the wrong length; assertErr models a failing assert statement. -/
inductive Err where
  | unboundedField : String → Err
  | missingDefault : String → Err
  | noHandler : Err
  | valueErr : Err
  | stopIter : Err
  | unpackErr : Err
  | assertErr : Err
deriving DecidableEq

/-- FieldOverride: optional numeric bound additions and mutually exclusive
default / default factory.  dflt is Val.undef when the UNSET sentinel is in
place; a factory is modelled by the value it produces. -/
structure FieldOverride where
  ge : Option ℚ
  le : Option ℚ
  gt : Option ℚ
  lt : Option ℚ
  dflt : Val
  dfac : Option Val

/-- FieldOverride.has_default: true iff a default value or factory is set. -/
def FieldOverride.has_default (o : FieldOverride) : Bool :=
  !(o.dflt matches .undef) || o.dfac.isSome

/-- FieldOverride.get_default: the factory result if a factory is present,
else the stored default. -/
def FieldOverride.get_default (o : FieldOverride) : Val :=
  match o.dfac with
  | some v => v
  | none => o.dflt

/-- merge_field_override: new metadata is the original metadata with one
marker appended per non-null override bound, in the source order
ge, le, gt, lt; the default and factory are replaced by the override
values when the override carries default information; the declared type is
kept.  The Python code builds a fresh FieldInfo, so the input descriptor is
left untouched; in this pure embedding that is inherent. -/
def merge_field_override (fi : FieldInfo) (o : FieldOverride) : FieldInfo :=
  let m1 := match o.ge with | some v => fi.md ++ [Bound.ge v] | none => fi.md
  let m2 := match o.le with | some v => m1 ++ [Bound.le v] | none => m1
  let m3 := match o.gt with | some v => m2 ++ [Bound.gt v] | none => m2
  let m4 := match o.lt with | some v => m3 ++ [Bound.lt v] | none => m3
  let newDflt : Val :=
    if !(o.dflt matches Val.undef) then o.dflt
    else if o.dfac.isSome then Val.undef
    else fi.dflt
  let newDfac : Option Val :=
    if !(o.dflt matches Val.undef) then none
    else if o.dfac.isSome then o.dfac
    else fi.dfac
  .mk fi.ann m4 newDflt newDfac

/-- Override mappings keyed by (dot-path) field name, in insertion order. -/
def Overrides := List (String × FieldOverride)

/-- Mapping.get: the first override stored under the given key, if any. -/
def ovLookup (ovs : Overrides) (name : String) : Option FieldOverride :=
  match List.find? (fun kv => kv.1 == name) ovs with
  | some kv => some kv.2
  | none => none

/-- extract_nested_overrides: keep the entries whose key starts with
the field name followed by a dot and strip that marker from the key. -/
def extract_nested_overrides (ovs : Overrides) (pfx : String) : Overrides :=
  let pd := pfx ++ "."
  List.map (fun kv => (String.drop kv.1 pd.length, kv.2))
    (List.filter (fun kv => String.startsWith kv.1 pd) ovs)

/-- Python int() truncation toward zero, on an exact rational. -/
def pyInt (q : ℚ) : ℤ :=
  if q < 0 then -⌊-q⌋ else ⌊q⌋

/-- First Ge marker value in the metadata, as read by
next(m.ge for m in metadata if isinstance(m, Ge)); none models the
StopIteration case. -/
def findGe : List Bound → Option ℚ
  | [] => none
  | .ge v :: _ => some v
  | _ :: rest => findGe rest

/-- First Le marker value in the metadata. -/
def findLe : List Bound → Option ℚ
  | [] => none
  | .le v :: _ => some v
  | _ :: rest => findLe rest

/-- NumericFieldHandler.check_boundedness: at least one lower marker
(Ge or Gt) and at least one upper marker (Le or Lt). -/
def numericCheckBoundedness (md : List Bound) : Bool :=
  (md.any fun m => m matches .ge _ || m matches .gt _) &&
  (md.any fun m => m matches .le _ || m matches .lt _)

/-- StringFieldHandler.check_boundedness: some MaxLen marker present. -/
def stringCheckBoundedness (md : List Bound) : Bool :=
  md.any fun m => m matches .maxLen _

/-- NumericFieldHandler.sample.  Reads the first Ge and the first Le marker
with next(...), which lets StopIteration escape when either inclusive
marker is absent; unpacks exactly one unit value; asserts it lies in
[0, 1]; then interpolates (float) or indexes the integer grid with the
min guard (int). -/
def numericSample (us : List ℚ) (fi : FieldInfo) : Except Err Val :=
  match findGe fi.md with
  | none => .error .stopIter
  | some lo =>
    match findLe fi.md with
    | none => .error .stopIter
    | some hi =>
      match us with
      | [u] =>
        if 0 ≤ u ∧ u ≤ 1 then
          match fi.ann with
          | .tInt =>
            let lo2 : ℤ := ⌈lo⌉
            let hi2 : ℤ := ⌊hi⌋
            let n : ℤ := hi2 - lo2 + 1
            let idx : ℤ := min (pyInt (u * (n : ℚ))) (n - 1)
            .ok (.num ((lo2 + idx : ℤ) : ℚ))
          | _ => .ok (.num (lo + (hi - lo) * u))
        else .error .assertErr
      | _ => .error .unpackErr

/-- LiteralFieldHandler.sample: fails on an empty argument list, unpacks
one unit value, asserts it lies in [0, 1], and indexes with
int(u * n) modulo n — not with the min guard the enum handler uses. -/
def literalSample (us : List ℚ) (args : List Val) : Except Err Val :=
  if args.isEmpty then .error .valueErr
  else
    match us with
    | [u] =>
      if 0 ≤ u ∧ u ≤ 1 then
        .ok (args.getD ((pyInt (u * (args.length : ℚ))).toNat % args.length) .undef)
      else .error .assertErr
    | _ => .error .unpackErr

/-- EnumFieldHandler.sample: fails on an empty member list, unpacks one
unit value, asserts it lies in [0, 1], and indexes with
min(int(u * n), n - 1). -/
def enumSample (us : List ℚ) (mems : List Val) : Except Err Val :=
  if mems.isEmpty then .error .valueErr
  else
    match us with
    | [u] =>
      if 0 ≤ u ∧ u ≤ 1 then
        .ok (mems.getD (min (pyInt (u * (mems.length : ℚ))) ((mems.length : ℤ) - 1)).toNat .undef)
      else .error .assertErr
    | _ => .error .unpackErr

/-- The unbounded-field branch shared by field_dimensions:
UnboundedFieldError unless constants are allowed, MissingDefaultError when
the effective field is required, else 0 dimensions. -/
def unboundedDims (efi : FieldInfo) (ac : Bool) (name : String) : Except Err Nat :=
  if !ac then .error (.unboundedField name)
  else if efi.is_required then .error (.missingDefault name)
  else .ok 0

/-- The unbounded-field branch of sample_field: UnboundedFieldError unless
constants are allowed, MissingDefaultError when required, else the factory
result or the stored default of the effective field. -/
def unboundedSample (efi : FieldInfo) (ac : Bool) (name : String) : Except Err Val :=
  if !ac then .error (.unboundedField name)
  else if efi.is_required then .error (.missingDefault name)
  else
    match efi.dfac with
    | some v => .ok v
    | none => .ok efi.dflt

/-
The default registry (FieldHandlerRegistry.default): the handler list, in
dispatch order, is [NumericFieldHandler, LiteralFieldHandler,
BaseModelFieldHandler].  Their can_handle predicates inspect only the
declared type and are pairwise disjoint (int/float, Literal origin,
BaseModel subclass), so iterating the handler list reduces to one match on
the declared type: int and float fall to the numeric handler, Literal to
the literal handler, model types to the nested-model handler, and str and
Enum types to no handler at all.  merge_field_override keeps the declared
type, so dispatch on the original type equals dispatch on the effective
(merged) descriptor.  The dispatch helpers below take the declared type as
their recursion argument alongside the effective descriptor.
-/

mutual
/-- FieldHandlerRegistry.check_field_boundedness for the default registry.
The source loops over every handler, records whether some handler was
capable, exits with False as soon as a capable handler reports unbounded,
and finally returns found_handler or not fail_on_no_handler.  With the
pairwise-disjoint default handlers this is the single capable branch
below; the str and Enum branches have no capable handler. -/
def check_field_boundedness (fi : FieldInfo) (fail_on_no_handler : Bool) : Bool :=
  match fi with
  | .mk a md _ _ =>
    match a with
    | .tInt => numericCheckBoundedness md
    | .tFloat => numericCheckBoundedness md
    | .tLit _ => true
    | .tModel s => check_model_boundedness s true
    | .tStr => !fail_on_no_handler
    | .tEnum _ => !fail_on_no_handler

/-- FieldHandlerRegistry.check_model_boundedness: all fields pass
check_field_boundedness with the same fail_on_no_handler policy. -/
def check_model_boundedness (s : Schema) (fail_on_no_handler : Bool) : Bool :=
  match s with
  | .nil => true
  | .cons _ fi rest =>
    check_field_boundedness fi fail_on_no_handler &&
      check_model_boundedness rest fail_on_no_handler

/-- FieldHandlerRegistry.field_dimensions: an override with default
information short-circuits to 0 dimensions; otherwise the override bounds
are merged in and the first capable handler decides. -/
def field_dimensions (fi : FieldInfo) (ac : Bool) (name : String)
    (ov : Option FieldOverride) : Except Err Nat :=
  match fi with
  | .mk a md d f =>
    match ov with
    | some o =>
      if o.has_default then .ok 0
      else fieldDimsDispatch a (merge_field_override (.mk a md d f) o) ac name
    | none => fieldDimsDispatch a (.mk a md d f) ac name
termination_by (sizeOf fi, 1)

/-- The handler-dispatch part of field_dimensions: bounded fields report
the handler dimension count (1 for scalars, the nested raw dimensions for
models — the nested-model handler calls model_dimensions with its default
arguments allow_constants=False and no overrides); unbounded fields take
the allow_constants-gated branch; with no capable handler a plain
ValueError is raised. -/
def fieldDimsDispatch (a : Ty) (efi : FieldInfo) (ac : Bool) (name : String) :
    Except Err Nat :=
  match a with
  | .tInt =>
    if numericCheckBoundedness efi.md then .ok 1 else unboundedDims efi ac name
  | .tFloat =>
    if numericCheckBoundedness efi.md then .ok 1 else unboundedDims efi ac name
  | .tLit _ => .ok 1
  | .tModel s =>
    if check_model_boundedness s true then model_dimensions s false []
    else unboundedDims efi ac name
  | .tStr => .error .noHandler
  | .tEnum _ => .error .noHandler
termination_by (sizeOf a, 0)

/-- FieldHandlerRegistry.model_dimensions: left-to-right sum of field
contributions.  A nested-model field that has a direct override or nested
dot-path overrides is recursed into with the extracted sub-overrides
(contributing 0 when the direct override carries a default); otherwise,
and for every non-model field, field_dimensions decides. -/
def model_dimensions (s : Schema) (ac : Bool) (ovs : Overrides) :
    Except Err Nat :=
  match s with
  | .nil => .ok 0
  | .cons name fi rest =>
    let ov := ovLookup ovs name
    let here : Except Err Nat :=
      match fi with
      | .mk (.tModel sub) md d f =>
        let nested := extract_nested_overrides ovs name
        if !nested.isEmpty || ov.isSome then
          match ov with
          | some o =>
            if o.has_default then .ok 0 else model_dimensions sub ac nested
          | none => model_dimensions sub ac nested
        else field_dimensions (.mk (.tModel sub) md d f) ac name none
      | other => field_dimensions other ac name ov
    match here with
    | .error e => .error e
    | .ok dHere =>
      match model_dimensions rest ac ovs with
      | .error e => .error e
      | .ok dRest => .ok (dHere + dRest)
termination_by (sizeOf s, 0)

/-- FieldHandlerRegistry.sample_field: an override with default
information returns its default directly; otherwise the override bounds
are merged in and the first capable handler samples. -/
def sample_field (us : List ℚ) (fi : FieldInfo) (ac : Bool) (name : String)
    (ov : Option FieldOverride) : Except Err Val :=
  match fi with
  | .mk a md d f =>
    match ov with
    | some o =>
      if o.has_default then .ok o.get_default
      else sampleFieldDispatch a us (merge_field_override (.mk a md d f) o) ac name
    | none => sampleFieldDispatch a us (.mk a md d f) ac name
termination_by (sizeOf fi, 1)

/-- The handler-dispatch part of sample_field: bounded fields sample with
the handler (the nested-model handler calls sample_model with its default
arguments allow_constants=False and no overrides); unbounded fields take
the allow_constants-gated constant branch; with no capable handler a plain
ValueError is raised. -/
def sampleFieldDispatch (a : Ty) (us : List ℚ) (efi : FieldInfo) (ac : Bool)
    (name : String) : Except Err Val :=
  match a with
  | .tInt =>
    if numericCheckBoundedness efi.md then numericSample us efi
    else unboundedSample efi ac name
  | .tFloat =>
    if numericCheckBoundedness efi.md then numericSample us efi
    else unboundedSample efi ac name
  | .tLit args => literalSample us args
  | .tModel s =>
    if check_model_boundedness s true then sample_model us s false []
    else unboundedSample efi ac name
  | .tStr => .error .noHandler
  | .tEnum _ => .error .noHandler
termination_by (sizeOf a, 0)

/-- The field loop of FieldHandlerRegistry.sample_model: every field takes
its dimension count of leading unit values off the running sequence
(take never over-consumes and never fails on shortage, exactly like
more_itertools.take on the shared iterator) and is sampled with them.  A
nested-model field computes its dimensions with model_dimensions on the
nested schema with the extracted sub-overrides and recurses with
sample_model, unless its direct override carries a default, which is used
directly and consumes nothing. -/
def sampleModelFields (us : List ℚ) (s : Schema) (ac : Bool)
    (ovs : Overrides) : Except Err (List (String × Val)) :=
  match s with
  | .nil => .ok []
  | .cons name fi rest =>
    let ov := ovLookup ovs name
    match fi with
    | .mk (.tModel sub) _ _ _ =>
      let nested := extract_nested_overrides ovs name
      match ov with
      | some o =>
        if o.has_default then
          match sampleModelFields us rest ac ovs with
          | .error e => .error e
          | .ok tl => .ok ((name, o.get_default) :: tl)
        else
          match model_dimensions sub ac nested with
          | .error e => .error e
          | .ok dims =>
            match sample_model (us.take dims) sub ac nested with
            | .error e => .error e
            | .ok v =>
              match sampleModelFields (us.drop dims) rest ac ovs with
              | .error e => .error e
              | .ok tl => .ok ((name, v) :: tl)
      | none =>
        match model_dimensions sub ac nested with
        | .error e => .error e
        | .ok dims =>
          match sample_model (us.take dims) sub ac nested with
          | .error e => .error e
          | .ok v =>
            match sampleModelFields (us.drop dims) rest ac ovs with
            | .error e => .error e
            | .ok tl => .ok ((name, v) :: tl)
    | other =>
      match field_dimensions other ac name ov with
      | .error e => .error e
      | .ok dims =>
        match sample_field (us.take dims) other ac name ov with
        | .error e => .error e
        | .ok v =>
          match sampleModelFields (us.drop dims) rest ac ovs with
          | .error e => .error e
          | .ok tl => .ok ((name, v) :: tl)
termination_by (sizeOf s, 0)

/-- FieldHandlerRegistry.sample_model: run the field loop and hand the
completed name-to-value mapping to the model constructor (an external
collaborator, modelled as packaging the mapping into an instance value). -/
def sample_model (us : List ℚ) (s : Schema) (ac : Bool) (ovs : Overrides) :
    Except Err Val :=
  match sampleModelFields us s ac ovs with
  | .error e => .error e
  | .ok fvs => .ok (.inst fvs)
termination_by (sizeOf s, 1)
end

/-- The effective boundedness decision of the dispatch: the first capable
default-registry handler's check_boundedness result, or none when no
handler is capable.  This is the branch selector shared by
fieldDimsDispatch and sampleFieldDispatch. -/
def dispatchBoundedness (fi : FieldInfo) : Option Bool :=
  match fi.ann with
  | .tInt => some (numericCheckBoundedness fi.md)
  | .tFloat => some (numericCheckBoundedness fi.md)
  | .tLit _ => some true
  | .tModel s => some (check_model_boundedness s true)
  | .tStr => none
  | .tEnum _ => none

/-- The field list of a schema, for stating per-field properties. -/
def Schema.toList : Schema → List (String × FieldInfo)
  | .nil => []
  | .cons name fi rest => (name, fi) :: rest.toList

/-
Generic registry model for the dispatch-order claim.  A handler is a
strategy object queried through can_handle and check_boundedness; for a
fixed registry both are functions of the field descriptor.  The handler
list is the priority-then-insertion ordered sequence produced by
iter_handlers.
-/

/-- A handler as seen by check_field_boundedness: its can_handle predicate
and its boundedness verdict on a descriptor. -/
structure SHandler where
  can_handle : FieldInfo → Bool
  check_bnd : FieldInfo → Bool

/-- The loop body of FieldHandlerRegistry.check_field_boundedness over an
arbitrary ordered handler list: walk every handler, remember in found
whether some handler was capable, return False as soon as a capable
handler reports unbounded, and finally return found or the permissive
no-handler policy. -/
def cfbLoop (hs : List SHandler) (fi : FieldInfo) (fail_on_no_handler : Bool)
    (found : Bool) : Bool :=
  match hs with
  | [] => found || !fail_on_no_handler
  | h :: rest =>
    if h.can_handle fi then
      if h.check_bnd fi then cfbLoop rest fi fail_on_no_handler true
      else false
    else cfbLoop rest fi fail_on_no_handler found

/-- FieldHandlerRegistry.check_field_boundedness over an arbitrary ordered
handler list: the loop started with found_handler = False. -/
def check_field_boundedness_generic (hs : List SHandler) (fi : FieldInfo)
    (fail_on_no_handler : Bool) : Bool :=
  cfbLoop hs fi fail_on_no_handler false

/-- A handler that is capable of everything and reports bounded. -/
def handlerYes : SHandler := ⟨fun _ => true, fun _ => true⟩

/-- A handler that is capable of everything and reports unbounded. -/
def handlerNo : SHandler := ⟨fun _ => true, fun _ => false⟩

/-
Concrete descriptors and schemas used by the witnesses, the spec
scenarios and the counterexamples.
-/

/-- rate: float = Field(ge=0.0, le=1.0) — a bounded float field. -/
def rateFi : FieldInfo := .mk .tFloat [.ge 0, .le 1] .undef none

/-- count: int = 42 — an unbounded int field with a default. -/
def countFi : FieldInfo := .mk .tInt [] (.num 42) none

/-- The spec scenario schema: rate is a float bounded [0,1] and count is
an int with default 42 and no bounds. -/
def scenarioS : Schema := .cons "rate" rateFi (.cons "count" countFi .nil)

/-- Inner schema: a is a float bounded [0,1] and b is an int with default
42 and no bounds: not bounded as a whole, but every field is sampleable or
constant once constants are allowed. -/
def innerS : Schema :=
  .cons "a" (.mk .tFloat [.ge 0, .le 1] .undef none)
    (.cons "b" (.mk .tInt [] (.num 42) none) .nil)

/-- Outer schema with one field inner: Inner having a default instance. -/
def outerS : Schema :=
  .cons "inner"
    (.mk (.tModel innerS) [] (.inst [("a", .num 0), ("b", .num 42)]) none)
    .nil

/-- A fully bounded two-float schema. -/
def demoS : Schema :=
  .cons "x" (.mk .tFloat [.ge 0, .le 1] .undef none)
    (.cons "y" (.mk .tFloat [.ge 0, .le 1] .undef none) .nil)

/-- An integer descriptor bounded ge=0, lt=100: bounded for the
boundedness check, but carrying no inclusive upper marker. -/
def intGeLtFi : FieldInfo := .mk .tInt [.ge 0, .lt 100] .undef none

/-- An integer descriptor bounded ge=0, le=99. -/
def intGeLe99Fi : FieldInfo := .mk .tInt [.ge 0, .le 99] .undef none

/-- A nested schema whose single leaf is a bounded float. -/
def leafBoundedS : Schema :=
  .cons "value" (.mk .tFloat [.ge 0, .le 10] .undef none) .nil

/-- The same nested schema with the one leaf made unbounded. -/
def leafUnboundedS : Schema :=
  .cons "value" (.mk .tFloat [] .undef none) .nil

/-- A plain str descriptor: no default-registry handler is capable. -/
def strFi : FieldInfo := .mk .tStr [] .undef none

/-
Theorems.
-/

theorem pyInt_of_nonneg (q : ℚ) (h : 0 ≤ q) : pyInt q = ⌊q⌋ := by
  unfold pyInt
  rw [if_neg (not_lt.mpr h)]

/-- The closed form of the check_field_boundedness loop, for any starting
value of the found flag. -/
theorem cfbLoop_eq (hs : List SHandler) (fi : FieldInfo) (fail : Bool)
    (found : Bool) :
    cfbLoop hs fi fail found =
      (((hs.filter fun h => h.can_handle fi).all fun h => h.check_bnd fi) &&
        (found || (hs.any fun h => h.can_handle fi) || !fail)) := by
  induction hs generalizing found with
  | nil => simp [cfbLoop]
  | cons h rest ih =>
    by_cases hc : h.can_handle fi
    · by_cases hb : h.check_bnd fi
      · simp [cfbLoop, hc, hb, ih]
      · simp [cfbLoop, hc, hb]
    · simp [cfbLoop, hc, ih]

/-- C3 (counterexample): with two capable handlers, the first reporting
bounded and the second reporting unbounded, check_field_boundedness
returns False although the first capable handler returned True — the
outcome is not delegated to the first capable handler alone. -/
theorem c3_first_handler_counterexample :
    check_field_boundedness_generic [handlerYes, handlerNo] strFi true = false ∧
    handlerYes.check_bnd strFi = true := by
  exact ⟨rfl, rfl⟩

/-- C3 (amended): check_field_boundedness takes no override argument and
does not delegate to the first capable handler alone: over any ordered
handler list it returns the conjunction of the boundedness verdicts of
every capable handler, and-ed with the no-handler policy term (some
handler capable, or fail_on_no_handler disabled).  When at most one
handler is capable — as with the pairwise-disjoint default handlers —
this coincides with delegating to the first capable handler. -/
theorem c3_all_capable_conjunction (hs : List SHandler) (fi : FieldInfo)
    (fail : Bool) :
    check_field_boundedness_generic hs fi fail =
      (((hs.filter fun h => h.can_handle fi).all fun h => h.check_bnd fi) &&
        ((hs.any fun h => h.can_handle fi) || !fail)) := by
  rw [check_field_boundedness_generic, cfbLoop_eq]
  simp

/-- C2 (counterexample): for a two-member literal field, unit value 1.0
samples the first member, not the last: the literal handler indexes with
int(u * n) modulo n instead of the min endpoint guard. -/
theorem c2_literal_endpoint_counterexample :
    literalSample [1] [Val.atom 0, Val.atom 1] = .ok (Val.atom 0) ∧
    Val.atom 0 ≠ Val.atom 1 := by
  constructor
  · norm_num [literalSample, pyInt, List.getD]
    simp
  · simp

/-- C2 (amended): the enum handler indexes with min(int(u * n), n - 1), so
unit value 1.0 yields the last member and 0.0 the first, but the literal
handler indexes with int(u * n) modulo n, so unit value 1.0 wraps around
to the first member; both handlers fail when the member list is empty. -/
theorem c2_literal_enum_sampling (ms : List Val) (u : ℚ)
    (hne : ms ≠ []) (h0 : 0 ≤ u) (h1 : u ≤ 1) :
    enumSample [1] ms = .ok (ms.getD (ms.length - 1) .undef) ∧
    enumSample [0] ms = .ok (ms.getD 0 .undef) ∧
    enumSample [u] [] = .error .valueErr ∧
    literalSample [u] ms =
      .ok (ms.getD (⌊u * (ms.length : ℚ)⌋.toNat % ms.length) .undef) ∧
    literalSample [1] ms = .ok (ms.getD 0 .undef) ∧
    literalSample [u] [] = .error .valueErr := by
  have hlen : 1 ≤ ms.length := List.length_pos.mpr hne
  have hemp : ms.isEmpty = false := by
    cases ms with
    | nil => exact absurd rfl hne
    | cons a tl => rfl
  refine ⟨?_, ?_, rfl, ?_, ?_, rfl⟩
  · have hidx : (min (pyInt ((1 : ℚ) * (ms.length : ℚ))) ((ms.length : ℤ) - 1)).toNat
        = ms.length - 1 := by
      rw [pyInt_of_nonneg _ (by positivity), one_mul, Int.floor_natCast]
      omega
    simp only [enumSample, hemp, Bool.false_eq_true, if_false, hidx]
    norm_num
  · have hidx : (min (pyInt ((0 : ℚ) * (ms.length : ℚ))) ((ms.length : ℤ) - 1)).toNat
        = 0 := by
      rw [zero_mul, pyInt_of_nonneg _ le_rfl, Int.floor_zero]
      omega
    simp only [enumSample, hemp, Bool.false_eq_true, if_false, hidx]
    norm_num
  · have hval : pyInt (u * (ms.length : ℚ)) = ⌊u * (ms.length : ℚ)⌋ :=
      pyInt_of_nonneg _ (mul_nonneg h0 (by positivity))
    simp only [literalSample, hemp, Bool.false_eq_true, if_false, hval,
      if_pos (And.intro h0 h1)]
  · have hidx : (pyInt ((1 : ℚ) * (ms.length : ℚ))).toNat % ms.length = 0 := by
      rw [pyInt_of_nonneg _ (by positivity), one_mul, Int.floor_natCast]
      simp
    simp only [literalSample, hemp, Bool.false_eq_true, if_false, hidx]
    norm_num

/-- C2 (witness): on the three-member list, unit value 1.0 selects the
last member for the enum handler but the first member for the literal
handler, and 0.0 selects the first member for the enum handler. -/
theorem c2_literal_enum_sampling_witness :
    enumSample [1] [Val.atom 0, Val.atom 1, Val.atom 2] = .ok (Val.atom 2) ∧
    enumSample [0] [Val.atom 0, Val.atom 1, Val.atom 2] = .ok (Val.atom 0) ∧
    literalSample [1] [Val.atom 0, Val.atom 1, Val.atom 2] = .ok (Val.atom 0) := by
  have h := c2_literal_enum_sampling [Val.atom 0, Val.atom 1, Val.atom 2]
    ((1 : ℚ) / 2) (by simp) (by norm_num) (by norm_num)
  exact ⟨by simpa using h.1, by simpa using h.2.1, by simpa using h.2.2.2.2.1⟩

/-- C4 (counterexample): for the integer field constrained ge=0, lt=100,
sampling unit value 0.995 does not yield 99 — the sampler reads only the
first Ge and the first Le marker with next(...), and with no Le marker
present the StopIteration from the exhausted generator escapes. -/
theorem c4_exclusive_bound_counterexample :
    numericSample [(199 : ℚ) / 200] intGeLtFi = .error .stopIter ∧
    numericSample [(199 : ℚ) / 200] intGeLtFi ≠ .ok (.num 99) := by
  have h1 : numericSample [(199 : ℚ) / 200] intGeLtFi = .error .stopIter := rfl
  exact ⟨h1, by rw [h1]; simp⟩

/-- C4 (amended): only inclusive bound values are read during sampling.
For the inclusively bounded integer field ge=0, le=99 (the [0,99] grid
with n=100 options) unit value 0.995 yields min(int(99.5), 99) = 99;
for the field bounded ge=0, lt=100 — bounded for the boundedness check —
sampling fails with the escaping StopIteration because no inclusive upper
marker exists. -/
theorem c4_inclusive_bounds_sampling :
    numericSample [(199 : ℚ) / 200] intGeLe99Fi = .ok (.num 99) ∧
    numericSample [(199 : ℚ) / 200] intGeLtFi = .error .stopIter := by
  constructor
  · rw [intGeLe99Fi]
    norm_num [numericSample, findGe, findLe, pyInt, FieldInfo.md, FieldInfo.ann]
  · rfl

/-- C5: for an integer field whose first inclusive bounds are lo ≤ hi,
sampling computes ceil(lo), floor(hi), n = floor(hi) - ceil(lo) + 1,
index = min(floor(u * n), n - 1) and result = ceil(lo) + index; in
particular unit value exactly 1.0 always yields exactly floor(hi). -/
theorem c5_integer_endpoint (md : List Bound) (d : Val) (f : Option Val)
    (lo hi u : ℚ) (hge : findGe md = some lo) (hle : findLe md = some hi)
    (hlh : lo ≤ hi) (h0 : 0 ≤ u) (h1 : u ≤ 1) :
    numericSample [u] (.mk .tInt md d f) =
      .ok (.num ((⌈lo⌉ + min ⌊u * ((⌊hi⌋ - ⌈lo⌉ + 1 : ℤ) : ℚ)⌋
        (⌊hi⌋ - ⌈lo⌉ + 1 - 1) : ℤ) : ℚ)) ∧
    numericSample [(1 : ℚ)] (.mk .tInt md d f) = .ok (.num ((⌊hi⌋ : ℤ) : ℚ)) := by
  have hn : (0 : ℤ) ≤ ⌊hi⌋ - ⌈lo⌉ + 1 := by
    have h2 : ⌈lo⌉ ≤ ⌈hi⌉ := Int.ceil_le_ceil hlh
    have h3 : ⌈hi⌉ ≤ ⌊hi⌋ + 1 := Int.ceil_le_floor_add_one hi
    omega
  have hnq : (0 : ℚ) ≤ ((⌊hi⌋ - ⌈lo⌉ + 1 : ℤ) : ℚ) := by exact_mod_cast hn
  constructor
  · unfold numericSample
    simp only [FieldInfo.md, FieldInfo.ann, hge, hle]
    rw [if_pos (And.intro h0 h1)]
    rw [pyInt_of_nonneg _ (mul_nonneg h0 hnq)]
  · unfold numericSample
    simp only [FieldInfo.md, FieldInfo.ann, hge, hle]
    rw [if_pos (And.intro (by norm_num) (le_refl (1 : ℚ)))]
    have hidx : ⌈lo⌉ + min (pyInt ((1 : ℚ) * ((⌊hi⌋ - ⌈lo⌉ + 1 : ℤ) : ℚ)))
        (⌊hi⌋ - ⌈lo⌉ + 1 - 1) = ⌊hi⌋ := by
      rw [pyInt_of_nonneg _ (by rw [one_mul]; exact hnq), one_mul, Int.floor_intCast]
      omega
    rw [hidx]

/-- C5 (witness): the integer field bounded ge=2, le=5 sampled at unit
value 1.0 yields exactly 5. -/
theorem c5_integer_endpoint_witness :
    numericSample [(1 : ℚ)] (.mk .tInt [.ge 2, .le 5] .undef none) =
      .ok (.num 5) := by
  have h := c5_integer_endpoint [.ge 2, .le 5] .undef none 2 5 1 rfl rfl
    (by norm_num) (by norm_num) (by norm_num)
  have h5 : ((⌊(5 : ℚ)⌋ : ℤ) : ℚ) = 5 := by norm_num
  rw [h.2, h5]

/-- C6: an override that supplies default information makes the field a
constant: field_dimensions returns 0 and sample_field returns exactly the
override default, for every unit-value input and for both values of
allow_constants — both short-circuit before any handler dispatch. -/
theorem c6_constant_short_circuit (us : List ℚ) (fi : FieldInfo) (ac : Bool)
    (name : String) (o : FieldOverride) (h : o.has_default = true) :
    field_dimensions fi ac name (some o) = .ok 0 ∧
    sample_field us fi ac name (some o) = .ok o.get_default := by
  cases fi with
  | mk a md d f =>
    constructor
    · simp only [field_dimensions, h, if_true]
    · simp only [sample_field, h, if_true]

/-- C6 (witness): a str field (which no default-registry handler can even
handle) overridden with default 7 contributes 0 dimensions and samples to
7, with allow_constants disabled. -/
theorem c6_constant_short_circuit_witness :
    field_dimensions strFi false "count"
      (some ⟨none, none, none, none, .num 7, none⟩) = .ok 0 ∧
    sample_field [] strFi false "count"
      (some ⟨none, none, none, none, .num 7, none⟩) = .ok (.num 7) := by
  have h := c6_constant_short_circuit [] strFi false "count"
    ⟨none, none, none, none, .num 7, none⟩ rfl
  exact ⟨h.1, by simpa [FieldOverride.get_default] using h.2⟩

/-- C8: merging an override yields a descriptor whose metadata is the
original metadata with one marker appended per non-null override bound in
the order ge, le, gt, lt, whose declared type is unchanged, and whose
default and factory are replaced by the override values exactly when the
override carries default information.  The source builds a fresh
FieldInfo and never mutates the input; the embedding is a pure function,
where this is inherent. -/
theorem c8_merge_override (fi : FieldInfo) (o : FieldOverride) :
    (merge_field_override fi o).ann = fi.ann ∧
    (merge_field_override fi o).md = fi.md ++
      ((match o.ge with | some v => [Bound.ge v] | none => []) ++
       (match o.le with | some v => [Bound.le v] | none => []) ++
       (match o.gt with | some v => [Bound.gt v] | none => []) ++
       (match o.lt with | some v => [Bound.lt v] | none => [])) ∧
    (o.dflt ≠ .undef →
      (merge_field_override fi o).dflt = o.dflt ∧
      (merge_field_override fi o).dfac = none) ∧
    (o.dflt = .undef → o.dfac.isSome = true →
      (merge_field_override fi o).dflt = .undef ∧
      (merge_field_override fi o).dfac = o.dfac) ∧
    (o.dflt = .undef → o.dfac = none →
      (merge_field_override fi o).dflt = fi.dflt ∧
      (merge_field_override fi o).dfac = fi.dfac) := by
  obtain ⟨og, ol, ogt, olt, od, ofc⟩ := o
  refine ⟨rfl, ?_, ?_, ?_, ?_⟩
  · cases og <;> cases ol <;> cases ogt <;> cases olt <;>
      simp [merge_field_override, FieldInfo.md]
  · intro hd
    have hb : (od matches Val.undef) = false := by
      cases od
      · exact absurd rfl hd
      all_goals rfl
    constructor <;>
      simp [merge_field_override, FieldInfo.dflt, FieldInfo.dfac, hb]
  · intro hd hf
    subst hd
    constructor <;>
      simp [merge_field_override, FieldInfo.dflt, FieldInfo.dfac, hf]
  · intro hd hf
    subst hd
    subst hf
    constructor <;>
      simp [merge_field_override, FieldInfo.dflt, FieldInfo.dfac]

/-- C8 (witness): merging an override carrying ge=1, lt=9 and default 3
onto an int descriptor with one Gt marker and a factory default appends
Ge then Lt after the Gt marker, keeps the declared type, replaces the
default with 3 and clears the factory. -/
theorem c8_merge_override_witness :
    (merge_field_override (.mk .tInt [.gt 0] .undef (some (.num 5)))
        ⟨some 1, none, none, some 9, .num 3, none⟩).ann = .tInt ∧
    (merge_field_override (.mk .tInt [.gt 0] .undef (some (.num 5)))
        ⟨some 1, none, none, some 9, .num 3, none⟩).md =
      [.gt 0, .ge 1, .lt 9] ∧
    (merge_field_override (.mk .tInt [.gt 0] .undef (some (.num 5)))
        ⟨some 1, none, none, some 9, .num 3, none⟩).dflt = .num 3 ∧
    (merge_field_override (.mk .tInt [.gt 0] .undef (some (.num 5)))
        ⟨some 1, none, none, some 9, .num 3, none⟩).dfac = none := by
  have h := c8_merge_override (.mk .tInt [.gt 0] .undef (some (.num 5)))
    ⟨some 1, none, none, some 9, .num 3, none⟩
  have h3 := h.2.2.1 (by simp)
  exact ⟨h.1, by simpa [FieldInfo.md] using h.2.1, h3.1, h3.2⟩

/-- check_model_boundedness is the conjunction of check_field_boundedness
over the declared fields. -/
theorem check_model_boundedness_iff (s : Schema) (fail : Bool) :
    check_model_boundedness s fail = true ↔
      ∀ p ∈ s.toList, check_field_boundedness p.2 fail = true := by
  cases s with
  | nil => simp [check_model_boundedness, Schema.toList]
  | cons name fi rest =>
    have ih := check_model_boundedness_iff rest fail
    simp [check_model_boundedness, Schema.toList, Bool.and_eq_true, ih]
termination_by sizeOf s

/-- C9: a nested-model field is reported bounded exactly when every field
of the nested schema passes the recursive boundedness check — the handler
delegates to the whole-schema check, the conjunction over the declared
fields; and flipping one leaf from bounded to unbounded flips the outer
verdict, shown on the one-leaf schemas. -/
theorem c9_nested_boundedness (s : Schema) (md : List Bound) (d : Val)
    (f : Option Val) (fail : Bool) :
    (check_field_boundedness (.mk (.tModel s) md d f) fail = true ↔
      ∀ p ∈ s.toList, check_field_boundedness p.2 true = true) ∧
    check_field_boundedness (.mk (.tModel leafBoundedS) md d f) fail = true ∧
    check_field_boundedness (.mk (.tModel leafUnboundedS) md d f) fail = false := by
  refine ⟨?_, ?_, ?_⟩
  · rw [show check_field_boundedness (.mk (.tModel s) md d f) fail =
        check_model_boundedness s true from by
      simp [check_field_boundedness]]
    exact check_model_boundedness_iff s true
  · simp [check_field_boundedness, check_model_boundedness, leafBoundedS,
      numericCheckBoundedness, FieldInfo.md]
  · simp [check_field_boundedness, check_model_boundedness, leafUnboundedS,
      numericCheckBoundedness, FieldInfo.md]

/-- C10: for a descriptor no default-registry handler can handle,
check_field_boundedness never raises — it returns False under the default
fail_on_no_handler=True policy and True under the permissive policy —
while field_dimensions and sample_field raise the plain no-handler
ValueError regardless of allow_constants. -/
theorem c10_no_handler_policy (fi : FieldInfo)
    (h : dispatchBoundedness fi = none) (ac : Bool) (name : String)
    (us : List ℚ) :
    check_field_boundedness fi true = false ∧
    check_field_boundedness fi false = true ∧
    field_dimensions fi ac name none = .error .noHandler ∧
    sample_field us fi ac name none = .error .noHandler := by
  cases fi with
  | mk a md d f =>
    cases a <;>
      simp_all [dispatchBoundedness, FieldInfo.ann, check_field_boundedness,
        field_dimensions, fieldDimsDispatch, sample_field, sampleFieldDispatch]

/-- C10 (witness): the plain str descriptor exercises the no-handler
policies of all three operations. -/
theorem c10_no_handler_policy_witness :
    check_field_boundedness strFi true = false ∧
    check_field_boundedness strFi false = true ∧
    field_dimensions strFi false "s" none = .error .noHandler ∧
    sample_field [] strFi false "s" none = .error .noHandler :=
  c10_no_handler_policy strFi rfl false "s" []

/-- C7: when the dispatched handler reports a field unbounded,
field_dimensions raises the unbounded-field error carrying the field name
under allow_constants=False, raises the distinct missing-default error
when constants are allowed but the field has neither default nor factory,
and returns 0 when constants are allowed and a default is present.  On
the spec scenario schema (rate: float in [0,1]; count: int default 42,
no bounds): model_dimensions with constants allowed is 1, sampling [0.5]
yields rate 0.5 and count 42, and model_dimensions with constants
disallowed raises the unbounded-field error naming count. -/
theorem c7_unbounded_error_taxonomy (fi : FieldInfo) (name : String)
    (h : dispatchBoundedness fi = some false) :
    field_dimensions fi false name none = .error (.unboundedField name) ∧
    (fi.is_required = true →
      field_dimensions fi true name none = .error (.missingDefault name)) ∧
    (fi.is_required = false → field_dimensions fi true name none = .ok 0) ∧
    model_dimensions scenarioS true [] = .ok 1 ∧
    sample_model [(1 : ℚ) / 2] scenarioS true [] =
      .ok (.inst [("rate", .num ((1 : ℚ) / 2)), ("count", .num 42)]) ∧
    model_dimensions scenarioS false [] = .error (.unboundedField "count") := by
  refine ⟨?_, ?_, ?_, ?_, ?_, ?_⟩
  · cases fi with
    | mk a md d f =>
      cases a <;>
        simp_all [dispatchBoundedness, FieldInfo.ann, field_dimensions,
          fieldDimsDispatch, unboundedDims]
  · intro hreq
    cases fi with
    | mk a md d f =>
      cases a <;>
        simp_all [dispatchBoundedness, FieldInfo.ann, field_dimensions,
          fieldDimsDispatch, unboundedDims]
  · intro hreq
    cases fi with
    | mk a md d f =>
      cases a <;>
        simp_all [dispatchBoundedness, FieldInfo.ann, field_dimensions,
          fieldDimsDispatch, unboundedDims]
  · simp [model_dimensions, field_dimensions, fieldDimsDispatch, scenarioS,
      rateFi, countFi, ovLookup, extract_nested_overrides,
      numericCheckBoundedness, unboundedDims, FieldInfo.md,
      FieldInfo.is_required]
  · simp [sample_model, sampleModelFields, sample_field, sampleFieldDispatch,
      model_dimensions, field_dimensions, fieldDimsDispatch, scenarioS,
      rateFi, countFi, ovLookup, extract_nested_overrides,
      numericCheckBoundedness, unboundedDims, unboundedSample, numericSample,
      findGe, findLe, pyInt, FieldInfo.md, FieldInfo.ann, FieldInfo.dflt,
      FieldInfo.dfac, FieldInfo.is_required]
    norm_num
  · simp [model_dimensions, field_dimensions, fieldDimsDispatch, scenarioS,
      rateFi, countFi, ovLookup, extract_nested_overrides,
      numericCheckBoundedness, unboundedDims, FieldInfo.md,
      FieldInfo.is_required]

/-- C7 (witness): the int descriptor with default 42 and no bounds is
dispatched unbounded; with constants disallowed the unbounded-field error
names the field, with constants allowed it contributes 0 dimensions. -/
theorem c7_unbounded_error_taxonomy_witness :
    field_dimensions countFi false "count" none =
      .error (.unboundedField "count") ∧
    field_dimensions countFi true "count" none = .ok 0 := by
  have h := c7_unbounded_error_taxonomy countFi "count" rfl
  exact ⟨h.1, h.2.2.1 rfl⟩

/-- The numeric sampler never reports an unpack mismatch when handed
exactly one unit value. -/
theorem numericSample_one_ne_unpack (efi : FieldInfo) (u : ℚ) :
    numericSample [u] efi ≠ .error .unpackErr := by
  unfold numericSample
  cases hg : findGe efi.md with
  | none => simp
  | some lo =>
    cases hl : findLe efi.md with
    | none => simp
    | some hi =>
      by_cases hc : 0 ≤ u ∧ u ≤ 1 <;> cases ha : efi.ann <;> simp [hc]

/-- The numeric sampler always fails when handed no unit value. -/
theorem numericSample_nil_err (efi : FieldInfo) :
    ∃ e, numericSample [] efi = .error e := by
  unfold numericSample
  cases hg : findGe efi.md with
  | none => exact ⟨.stopIter, rfl⟩
  | some lo =>
    cases hl : findLe efi.md with
    | none => exact ⟨.stopIter, rfl⟩
    | some hi => exact ⟨.unpackErr, rfl⟩

/-- The literal sampler never reports an unpack mismatch when handed
exactly one unit value. -/
theorem literalSample_one_ne_unpack (args : List Val) (u : ℚ) :
    literalSample [u] args ≠ .error .unpackErr := by
  unfold literalSample
  by_cases he : args.isEmpty
  · simp [he]
  · by_cases hc : 0 ≤ u ∧ u ≤ 1
    · simp [he, hc]
    · simp [he, hc]

/-- The literal sampler always fails when handed no unit value. -/
theorem literalSample_nil_err (args : List Val) :
    ∃ e, literalSample [] args = .error e := by
  unfold literalSample
  by_cases he : args.isEmpty
  · exact ⟨.valueErr, by simp [he]⟩
  · exact ⟨.unpackErr, by simp [he]⟩

/-- For a non-model field whose dimension computation under strict
allow_constants=False succeeded with k, sampling with exactly k unit
values never reports an unpack mismatch. -/
theorem sample_field_exact (a : Ty) (md : List Bound) (df : Val)
    (fc : Option Val) (name : String) (ov : Option FieldOverride) (k : Nat)
    (vs : List ℚ) (hnm : ∀ sub, a ≠ Ty.tModel sub)
    (hfd : field_dimensions (.mk a md df fc) false name ov = .ok k)
    (hlen : vs.length = k) :
    sample_field vs (.mk a md df fc) false name ov ≠ .error .unpackErr := by
  cases ov with
  | none =>
    simp only [field_dimensions] at hfd
    simp only [sample_field]
    cases a with
    | tInt =>
      simp only [fieldDimsDispatch] at hfd
      simp only [sampleFieldDispatch]
      by_cases hb : numericCheckBoundedness (FieldInfo.mk Ty.tInt md df fc).md
      · rw [if_pos hb] at hfd
        rw [if_pos hb]
        have hk : k = 1 := by
          cases hfd
          rfl
        subst hk
        match vs, hlen with
        | [u], _ => exact numericSample_one_ne_unpack _ u
      · rw [if_neg hb] at hfd
        simp [unboundedDims] at hfd
    | tFloat =>
      simp only [fieldDimsDispatch] at hfd
      simp only [sampleFieldDispatch]
      by_cases hb : numericCheckBoundedness (FieldInfo.mk Ty.tFloat md df fc).md
      · rw [if_pos hb] at hfd
        rw [if_pos hb]
        have hk : k = 1 := by
          cases hfd
          rfl
        subst hk
        match vs, hlen with
        | [u], _ => exact numericSample_one_ne_unpack _ u
      · rw [if_neg hb] at hfd
        simp [unboundedDims] at hfd
    | tStr => simp [fieldDimsDispatch] at hfd
    | tEnum ms => simp [fieldDimsDispatch] at hfd
    | tLit args =>
      simp only [fieldDimsDispatch] at hfd
      simp only [sampleFieldDispatch]
      have hk : k = 1 := by
        cases hfd
        rfl
      subst hk
      match vs, hlen with
      | [u], _ => exact literalSample_one_ne_unpack args u
    | tModel sub => exact absurd rfl (hnm sub)
  | some o =>
    simp only [field_dimensions] at hfd
    simp only [sample_field]
    by_cases ho : o.has_default
    · simp [ho]
    · rw [if_neg (by simp [ho])] at hfd
      rw [if_neg (by simp [ho])]
      cases a with
      | tInt =>
        simp only [fieldDimsDispatch] at hfd
        simp only [sampleFieldDispatch]
        by_cases hb : numericCheckBoundedness
            (merge_field_override (FieldInfo.mk Ty.tInt md df fc) o).md
        · rw [if_pos hb] at hfd
          rw [if_pos hb]
          have hk : k = 1 := by
            cases hfd
            rfl
          subst hk
          match vs, hlen with
          | [u], _ => exact numericSample_one_ne_unpack _ u
        · rw [if_neg hb] at hfd
          simp [unboundedDims] at hfd
      | tFloat =>
        simp only [fieldDimsDispatch] at hfd
        simp only [sampleFieldDispatch]
        by_cases hb : numericCheckBoundedness
            (merge_field_override (FieldInfo.mk Ty.tFloat md df fc) o).md
        · rw [if_pos hb] at hfd
          rw [if_pos hb]
          have hk : k = 1 := by
            cases hfd
            rfl
          subst hk
          match vs, hlen with
          | [u], _ => exact numericSample_one_ne_unpack _ u
        · rw [if_neg hb] at hfd
          simp [unboundedDims] at hfd
      | tStr => simp [fieldDimsDispatch] at hfd
      | tEnum ms => simp [fieldDimsDispatch] at hfd
      | tLit args =>
        simp only [fieldDimsDispatch] at hfd
        simp only [sampleFieldDispatch]
        have hk : k = 1 := by
          cases hfd
          rfl
        subst hk
        match vs, hlen with
        | [u], _ => exact literalSample_one_ne_unpack args u
      | tModel sub => exact absurd rfl (hnm sub)

/-- For a non-model field whose dimension computation under strict
allow_constants=False succeeded with k, sampling with fewer than k unit
values always fails. -/
theorem sample_field_short (a : Ty) (md : List Bound) (df : Val)
    (fc : Option Val) (name : String) (ov : Option FieldOverride) (k : Nat)
    (vs : List ℚ) (hnm : ∀ sub, a ≠ Ty.tModel sub)
    (hfd : field_dimensions (.mk a md df fc) false name ov = .ok k)
    (hlen : vs.length < k) :
    ∃ e, sample_field vs (.mk a md df fc) false name ov = .error e := by
  cases ov with
  | none =>
    simp only [field_dimensions] at hfd
    simp only [sample_field]
    cases a with
    | tInt =>
      simp only [fieldDimsDispatch] at hfd
      simp only [sampleFieldDispatch]
      by_cases hb : numericCheckBoundedness (FieldInfo.mk Ty.tInt md df fc).md
      · rw [if_pos hb] at hfd
        rw [if_pos hb]
        have hk : k = 1 := by
          cases hfd
          rfl
        subst hk
        match vs, hlen with
        | [], _ => exact numericSample_nil_err _
      · rw [if_neg hb] at hfd
        simp [unboundedDims] at hfd
    | tFloat =>
      simp only [fieldDimsDispatch] at hfd
      simp only [sampleFieldDispatch]
      by_cases hb : numericCheckBoundedness (FieldInfo.mk Ty.tFloat md df fc).md
      · rw [if_pos hb] at hfd
        rw [if_pos hb]
        have hk : k = 1 := by
          cases hfd
          rfl
        subst hk
        match vs, hlen with
        | [], _ => exact numericSample_nil_err _
      · rw [if_neg hb] at hfd
        simp [unboundedDims] at hfd
    | tStr => simp [fieldDimsDispatch] at hfd
    | tEnum ms => simp [fieldDimsDispatch] at hfd
    | tLit args =>
      simp only [fieldDimsDispatch] at hfd
      simp only [sampleFieldDispatch]
      have hk : k = 1 := by
        cases hfd
        rfl
      subst hk
      match vs, hlen with
      | [], _ => exact literalSample_nil_err args
    | tModel sub => exact absurd rfl (hnm sub)
  | some o =>
    simp only [field_dimensions] at hfd
    simp only [sample_field]
    by_cases ho : o.has_default
    · rw [if_pos (by simp [ho])] at hfd
      have hk : k = 0 := by
        cases hfd
        rfl
      omega
    · rw [if_neg (by simp [ho])] at hfd
      rw [if_neg (by simp [ho])]
      cases a with
      | tInt =>
        simp only [fieldDimsDispatch] at hfd
        simp only [sampleFieldDispatch]
        by_cases hb : numericCheckBoundedness
            (merge_field_override (FieldInfo.mk Ty.tInt md df fc) o).md
        · rw [if_pos hb] at hfd
          rw [if_pos hb]
          have hk : k = 1 := by
            cases hfd
            rfl
          subst hk
          match vs, hlen with
          | [], _ => exact numericSample_nil_err _
        · rw [if_neg hb] at hfd
          simp [unboundedDims] at hfd
      | tFloat =>
        simp only [fieldDimsDispatch] at hfd
        simp only [sampleFieldDispatch]
        by_cases hb : numericCheckBoundedness
            (merge_field_override (FieldInfo.mk Ty.tFloat md df fc) o).md
        · rw [if_pos hb] at hfd
          rw [if_pos hb]
          have hk : k = 1 := by
            cases hfd
            rfl
          subst hk
          match vs, hlen with
          | [], _ => exact numericSample_nil_err _
        · rw [if_neg hb] at hfd
          simp [unboundedDims] at hfd
      | tStr => simp [fieldDimsDispatch] at hfd
      | tEnum ms => simp [fieldDimsDispatch] at hfd
      | tLit args =>
        simp only [fieldDimsDispatch] at hfd
        simp only [sampleFieldDispatch]
        have hk : k = 1 := by
          cases hfd
          rfl
        subst hk
        match vs, hlen with
        | [], _ => exact literalSample_nil_err args
      | tModel sub => exact absurd rfl (hnm sub)

/-- sample_model fails with an error exactly when its field loop does. -/
theorem sample_model_error_iff (us : List ℚ) (s : Schema) (ac : Bool)
    (ovs : Overrides) (e : Err) :
    sample_model us s ac ovs = .error e ↔
      sampleModelFields us s ac ovs = .error e := by
  unfold sample_model
  cases h : sampleModelFields us s ac ovs <;> simp

/-- Alignment step for one scalar (non-model) field followed by the rest
of the schema: with the strict policy, handing the field its reported
dimension count and the rest theirs never produces an unpack mismatch,
and a shortage always produces an error. -/
theorem scalarChainAlign (a : Ty) (md : List Bound) (df : Val)
    (fc : Option Val) (name : String) (rest : Schema) (ovs : Overrides)
    (k dRest : Nat) (us : List ℚ) (hnm : ∀ sub, a ≠ Ty.tModel sub)
    (hfd : field_dimensions (.mk a md df fc) false name (ovLookup ovs name) = .ok k)
    (ihrest : ∀ us2 : List ℚ,
      (us2.length = dRest →
        sampleModelFields us2 rest false ovs ≠ .error .unpackErr) ∧
      (us2.length < dRest →
        ∃ e, sampleModelFields us2 rest false ovs = .error e)) :
    (us.length = k + dRest →
      sampleModelFields us (.cons name (.mk a md df fc) rest) false ovs ≠
        .error .unpackErr) ∧
    (us.length < k + dRest →
      ∃ e, sampleModelFields us (.cons name (.mk a md df fc) rest) false ovs =
        .error e) := by
  have hred : sampleModelFields us (.cons name (.mk a md df fc) rest) false ovs =
      (match sample_field (us.take k) (.mk a md df fc) false name
          (ovLookup ovs name) with
       | .error e => .error e
       | .ok v =>
         match sampleModelFields (us.drop k) rest false ovs with
         | .error e => .error e
         | .ok tl => .ok ((name, v) :: tl)) := by
    cases a with
    | tModel sub => exact absurd rfl (hnm sub)
    | tInt => simp only [sampleModelFields, hfd]
    | tFloat => simp only [sampleModelFields, hfd]
    | tStr => simp only [sampleModelFields, hfd]
    | tLit args => simp only [sampleModelFields, hfd]
    | tEnum ms => simp only [sampleModelFields, hfd]
  rw [hred]
  constructor
  · intro hlen
    have htk : (us.take k).length = k := by
      simp only [List.length_take]
      omega
    cases hsf : sample_field (us.take k) (.mk a md df fc) false name
        (ovLookup ovs name) with
    | error e =>
      have hne := sample_field_exact a md df fc name (ovLookup ovs name) k
        (us.take k) hnm hfd htk
      rw [hsf] at hne
      simpa [hsf] using hne
    | ok v =>
      have hdrop : (us.drop k).length = dRest := by
        simp only [List.length_drop]
        omega
      cases hsr : sampleModelFields (us.drop k) rest false ovs with
      | error e =>
        have hne := (ihrest (us.drop k)).1 hdrop
        rw [hsr] at hne
        simpa [hsf, hsr] using hne
      | ok tl => simp [hsf, hsr]
  · intro hlen
    by_cases hk : us.length < k
    · have htall : us.take k = us := List.take_of_length_le (le_of_lt hk)
      obtain ⟨e, he⟩ := sample_field_short a md df fc name (ovLookup ovs name)
        k (us.take k) hnm hfd (by rw [htall]; exact hk)
      exact ⟨e, by simp [he]⟩
    · push_neg at hk
      cases hsf : sample_field (us.take k) (.mk a md df fc) false name
          (ovLookup ovs name) with
      | error e => exact ⟨e, by simp [hsf]⟩
      | ok v =>
        have hdrop : (us.drop k).length < dRest := by
          simp only [List.length_drop]
          omega
        obtain ⟨e, he⟩ := (ihrest (us.drop k)).2 hdrop
        exact ⟨e, by simp [hsf, he]⟩

/-- Alignment step for one nested-model field followed by the rest of the
schema, stated on the sampling chain after the dimension lookup has been
resolved to dSub. -/
theorem modelChainAlign (name : String) (sub rest : Schema)
    (ovs nv : Overrides) (dSub dRest : Nat) (us : List ℚ)
    (ihsub : ∀ us2 : List ℚ,
      (us2.length = dSub →
        sampleModelFields us2 sub false nv ≠ .error .unpackErr) ∧
      (us2.length < dSub →
        ∃ e, sampleModelFields us2 sub false nv = .error e))
    (ihrest : ∀ us2 : List ℚ,
      (us2.length = dRest →
        sampleModelFields us2 rest false ovs ≠ .error .unpackErr) ∧
      (us2.length < dRest →
        ∃ e, sampleModelFields us2 rest false ovs = .error e)) :
    (us.length = dSub + dRest →
      ((match sample_model (us.take dSub) sub false nv with
        | Except.error e => Except.error e
        | Except.ok v =>
          match sampleModelFields (us.drop dSub) rest false ovs with
          | Except.error e => Except.error e
          | Except.ok tl => Except.ok ((name, v) :: tl)) :
        Except Err (List (String × Val))) ≠ .error .unpackErr) ∧
    (us.length < dSub + dRest →
      ∃ e, ((match sample_model (us.take dSub) sub false nv with
        | Except.error e => Except.error e
        | Except.ok v =>
          match sampleModelFields (us.drop dSub) rest false ovs with
          | Except.error e => Except.error e
          | Except.ok tl => Except.ok ((name, v) :: tl)) :
        Except Err (List (String × Val))) = .error e) := by
  constructor
  · intro hlen
    have htk : (us.take dSub).length = dSub := by
      simp only [List.length_take]
      omega
    cases hsm : sample_model (us.take dSub) sub false nv with
    | error e =>
      have hsmf : sampleModelFields (us.take dSub) sub false nv = .error e :=
        (sample_model_error_iff _ _ _ _ _).mp hsm
      have hne := (ihsub (us.take dSub)).1 htk
      rw [hsmf] at hne
      simpa [hsm] using hne
    | ok v =>
      have hdrop : (us.drop dSub).length = dRest := by
        simp only [List.length_drop]
        omega
      cases hsr : sampleModelFields (us.drop dSub) rest false ovs with
      | error e =>
        have hne := (ihrest (us.drop dSub)).1 hdrop
        rw [hsr] at hne
        simpa [hsm, hsr] using hne
      | ok tl => simp [hsm, hsr]
  · intro hlen
    by_cases hk : us.length < dSub
    · have htall : us.take dSub = us := List.take_of_length_le (le_of_lt hk)
      obtain ⟨e, he⟩ := (ihsub (us.take dSub)).2 (by rw [htall]; exact hk)
      have hsm : sample_model (us.take dSub) sub false nv = .error e :=
        (sample_model_error_iff _ _ _ _ _).mpr he
      exact ⟨e, by simp [hsm]⟩
    · push_neg at hk
      cases hsm : sample_model (us.take dSub) sub false nv with
      | error e => exact ⟨e, by simp [hsm]⟩
      | ok v =>
        have hdrop : (us.drop dSub).length < dRest := by
          simp only [List.length_drop]
          omega
        obtain ⟨e, he⟩ := (ihrest (us.drop dSub)).2 hdrop
        exact ⟨e, by simp [hsm, he]⟩

/-- Alignment step for a constant field (an override default consuming no
unit values) followed by the rest of the schema. -/
theorem constChainAlign (name : String) (rest : Schema) (ovs : Overrides)
    (dRest : Nat) (us : List ℚ) (v : Val)
    (ihrest : ∀ us2 : List ℚ,
      (us2.length = dRest →
        sampleModelFields us2 rest false ovs ≠ .error .unpackErr) ∧
      (us2.length < dRest →
        ∃ e, sampleModelFields us2 rest false ovs = .error e)) :
    (us.length = dRest →
      ((match sampleModelFields us rest false ovs with
        | Except.error e => Except.error e
        | Except.ok tl => Except.ok ((name, v) :: tl)) :
        Except Err (List (String × Val))) ≠ .error .unpackErr) ∧
    (us.length < dRest →
      ∃ e, ((match sampleModelFields us rest false ovs with
        | Except.error e => Except.error e
        | Except.ok tl => Except.ok ((name, v) :: tl)) :
        Except Err (List (String × Val))) = .error e) := by
  constructor
  · intro hlen
    cases hsr : sampleModelFields us rest false ovs with
    | error e =>
      have hne := (ihrest us).1 hlen
      rw [hsr] at hne
      simpa [hsr] using hne
    | ok tl => simp [hsr]
  · intro hlen
    obtain ⟨e, he⟩ := (ihrest us).2 hlen
    exact ⟨e, by simp [he]⟩

/-- The alignment invariant under the strict allow_constants=False policy:
whenever model_dimensions succeeds with d, the sample_model field loop
handed exactly d unit values never reports an unpack mismatch, and handed
fewer than d it always fails. -/
theorem sampleModelFields_alignment (s : Schema) (ovs : Overrides)
    (us : List ℚ) (d : Nat) (hd : model_dimensions s false ovs = .ok d) :
    (us.length = d → sampleModelFields us s false ovs ≠ .error .unpackErr) ∧
    (us.length < d → ∃ e, sampleModelFields us s false ovs = .error e) := by
  cases s with
  | nil =>
    simp only [model_dimensions] at hd
    injection hd with h
    subst h
    constructor
    · intro _
      simp [sampleModelFields]
    · intro h
      omega
  | cons name fi rest =>
    cases fi with
    | mk a md df fc =>
      cases a with
      | tModel sub =>
        simp only [model_dimensions] at hd
        cases hov : ovLookup ovs name with
        | some o =>
          cases ho : o.has_default with
          | true =>
            simp only [hov, ho, Option.isSome_some, Bool.or_true, if_true] at hd
            cases hrest : model_dimensions rest false ovs with
            | error e =>
              simp only [hrest] at hd
              exact Except.noConfusion hd
            | ok dRest =>
              simp only [hrest, Nat.zero_add] at hd
              injection hd with h
              subst h
              have hred : sampleModelFields us
                  (.cons name (.mk (.tModel sub) md df fc) rest) false ovs =
                  ((match sampleModelFields us rest false ovs with
                    | Except.error e => Except.error e
                    | Except.ok tl => Except.ok ((name, o.get_default) :: tl)) :
                    Except Err (List (String × Val))) := by
                simp only [sampleModelFields, hov, ho, if_true]
              rw [hred]
              exact constChainAlign name rest ovs dRest us o.get_default
                (fun us2 => sampleModelFields_alignment rest ovs us2 dRest hrest)
          | false =>
            simp only [hov, ho, Option.isSome_some, Bool.or_true, if_true,
              Bool.false_eq_true, if_false] at hd
            cases hsub : model_dimensions sub false
                (extract_nested_overrides ovs name) with
            | error e =>
              simp only [hsub] at hd
              exact Except.noConfusion hd
            | ok dSub =>
              simp only [hsub] at hd
              cases hrest : model_dimensions rest false ovs with
              | error e =>
                simp only [hrest] at hd
                exact Except.noConfusion hd
              | ok dRest =>
                simp only [hrest] at hd
                injection hd with h
                subst h
                have hred : sampleModelFields us
                    (.cons name (.mk (.tModel sub) md df fc) rest) false ovs =
                    ((match sample_model (us.take dSub) sub false
                        (extract_nested_overrides ovs name) with
                      | Except.error e => Except.error e
                      | Except.ok v =>
                        match sampleModelFields (us.drop dSub) rest false ovs with
                        | Except.error e => Except.error e
                        | Except.ok tl => Except.ok ((name, v) :: tl)) :
                      Except Err (List (String × Val))) := by
                  simp only [sampleModelFields, hov, ho, Bool.false_eq_true,
                    if_false, hsub]
                rw [hred]
                exact modelChainAlign name sub rest ovs
                  (extract_nested_overrides ovs name) dSub dRest us
                  (fun us2 => sampleModelFields_alignment sub
                    (extract_nested_overrides ovs name) us2 dSub hsub)
                  (fun us2 => sampleModelFields_alignment rest ovs us2 dRest hrest)
        | none =>
          cases hne : (extract_nested_overrides ovs name).isEmpty with
          | false =>
            simp only [hov, hne, Option.isSome_none, Bool.or_false,
              Bool.not_false, if_true] at hd
            cases hsub : model_dimensions sub false
                (extract_nested_overrides ovs name) with
            | error e =>
              simp only [hsub] at hd
              exact Except.noConfusion hd
            | ok dSub =>
              simp only [hsub] at hd
              cases hrest : model_dimensions rest false ovs with
              | error e =>
                simp only [hrest] at hd
                exact Except.noConfusion hd
              | ok dRest =>
                simp only [hrest] at hd
                injection hd with h
                subst h
                have hred : sampleModelFields us
                    (.cons name (.mk (.tModel sub) md df fc) rest) false ovs =
                    ((match sample_model (us.take dSub) sub false
                        (extract_nested_overrides ovs name) with
                      | Except.error e => Except.error e
                      | Except.ok v =>
                        match sampleModelFields (us.drop dSub) rest false ovs with
                        | Except.error e => Except.error e
                        | Except.ok tl => Except.ok ((name, v) :: tl)) :
                      Except Err (List (String × Val))) := by
                  simp only [sampleModelFields, hov, hsub]
                rw [hred]
                exact modelChainAlign name sub rest ovs
                  (extract_nested_overrides ovs name) dSub dRest us
                  (fun us2 => sampleModelFields_alignment sub
                    (extract_nested_overrides ovs name) us2 dSub hsub)
                  (fun us2 => sampleModelFields_alignment rest ovs us2 dRest hrest)
          | true =>
            have hnil : extract_nested_overrides ovs name = [] := by
              simpa using hne
            simp only [hov, hne, Option.isSome_none, Bool.or_false,
              Bool.not_true, Bool.false_eq_true, if_false] at hd
            simp only [field_dimensions, fieldDimsDispatch] at hd
            cases hcmb : check_model_boundedness sub true with
            | false =>
              simp only [hcmb, Bool.false_eq_true, if_false, unboundedDims,
                Bool.not_false, if_true] at hd
              exact Except.noConfusion hd
            | true =>
              simp only [hcmb, if_true] at hd
              cases hsub : model_dimensions sub false [] with
              | error e =>
                simp only [hsub] at hd
                exact Except.noConfusion hd
              | ok dSub =>
                simp only [hsub] at hd
                cases hrest : model_dimensions rest false ovs with
                | error e =>
                  simp only [hrest] at hd
                  exact Except.noConfusion hd
                | ok dRest =>
                  simp only [hrest] at hd
                  injection hd with h
                  subst h
                  have hred : sampleModelFields us
                      (.cons name (.mk (.tModel sub) md df fc) rest) false ovs =
                      ((match sample_model (us.take dSub) sub false [] with
                        | Except.error e => Except.error e
                        | Except.ok v =>
                          match sampleModelFields (us.drop dSub) rest false ovs with
                          | Except.error e => Except.error e
                          | Except.ok tl => Except.ok ((name, v) :: tl)) :
                        Except Err (List (String × Val))) := by
                    simp only [sampleModelFields, hov, hnil, hsub]
                  rw [hred]
                  exact modelChainAlign name sub rest ovs [] dSub dRest us
                    (fun us2 => sampleModelFields_alignment sub [] us2 dSub hsub)
                    (fun us2 => sampleModelFields_alignment rest ovs us2 dRest hrest)
      | tInt =>
        simp only [model_dimensions] at hd
        cases hfd : field_dimensions (.mk .tInt md df fc) false name
            (ovLookup ovs name) with
        | error e =>
          simp only [hfd] at hd
          exact Except.noConfusion hd
        | ok k =>
          simp only [hfd] at hd
          cases hrest : model_dimensions rest false ovs with
          | error e =>
            simp only [hrest] at hd
            exact Except.noConfusion hd
          | ok dRest =>
            simp only [hrest] at hd
            injection hd with h
            subst h
            exact scalarChainAlign .tInt md df fc name rest ovs k dRest us
              nofun hfd
              (fun us2 => sampleModelFields_alignment rest ovs us2 dRest hrest)
      | tFloat =>
        simp only [model_dimensions] at hd
        cases hfd : field_dimensions (.mk .tFloat md df fc) false name
            (ovLookup ovs name) with
        | error e =>
          simp only [hfd] at hd
          exact Except.noConfusion hd
        | ok k =>
          simp only [hfd] at hd
          cases hrest : model_dimensions rest false ovs with
          | error e =>
            simp only [hrest] at hd
            exact Except.noConfusion hd
          | ok dRest =>
            simp only [hrest] at hd
            injection hd with h
            subst h
            exact scalarChainAlign .tFloat md df fc name rest ovs k dRest us
              nofun hfd
              (fun us2 => sampleModelFields_alignment rest ovs us2 dRest hrest)
      | tStr =>
        simp only [model_dimensions] at hd
        cases hfd : field_dimensions (.mk .tStr md df fc) false name
            (ovLookup ovs name) with
        | error e =>
          simp only [hfd] at hd
          exact Except.noConfusion hd
        | ok k =>
          simp only [hfd] at hd
          cases hrest : model_dimensions rest false ovs with
          | error e =>
            simp only [hrest] at hd
            exact Except.noConfusion hd
          | ok dRest =>
            simp only [hrest] at hd
            injection hd with h
            subst h
            exact scalarChainAlign .tStr md df fc name rest ovs k dRest us
              nofun hfd
              (fun us2 => sampleModelFields_alignment rest ovs us2 dRest hrest)
      | tLit args =>
        simp only [model_dimensions] at hd
        cases hfd : field_dimensions (.mk (.tLit args) md df fc) false name
            (ovLookup ovs name) with
        | error e =>
          simp only [hfd] at hd
          exact Except.noConfusion hd
        | ok k =>
          simp only [hfd] at hd
          cases hrest : model_dimensions rest false ovs with
          | error e =>
            simp only [hrest] at hd
            exact Except.noConfusion hd
          | ok dRest =>
            simp only [hrest] at hd
            injection hd with h
            subst h
            exact scalarChainAlign (.tLit args) md df fc name rest ovs k dRest
              us nofun hfd
              (fun us2 => sampleModelFields_alignment rest ovs us2 dRest hrest)
      | tEnum ms =>
        simp only [model_dimensions] at hd
        cases hfd : field_dimensions (.mk (.tEnum ms) md df fc) false name
            (ovLookup ovs name) with
        | error e =>
          simp only [hfd] at hd
          exact Except.noConfusion hd
        | ok k =>
          simp only [hfd] at hd
          cases hrest : model_dimensions rest false ovs with
          | error e =>
            simp only [hrest] at hd
            exact Except.noConfusion hd
          | ok dRest =>
            simp only [hrest] at hd
            injection hd with h
            subst h
            exact scalarChainAlign (.tEnum ms) md df fc name rest ovs k dRest
              us nofun hfd
              (fun us2 => sampleModelFields_alignment rest ovs us2 dRest hrest)
termination_by sizeOf s

/-- C1 (counterexample): with allow_constants=True the two traversals
disagree.  For the outer schema whose single field is a nested model with
a default — the nested model having one bounded float and one unbounded
int with default — model_dimensions reports 0 (the nested field is an
unbounded-but-defaulted constant), yet sample_model always recurses into
nested models: handed exactly 0 unit values it re-computes the nested
dimensions as 1, hands the bounded float an empty sequence, and fails
with the length-mismatch unpack error. -/
theorem c1_alignment_counterexample :
    model_dimensions outerS true [] = .ok 0 ∧
    sample_model [] outerS true [] = .error .unpackErr := by
  constructor
  · simp [model_dimensions, field_dimensions, fieldDimsDispatch, outerS,
      innerS, ovLookup, extract_nested_overrides, numericCheckBoundedness,
      unboundedDims, check_model_boundedness, check_field_boundedness,
      FieldInfo.md, FieldInfo.is_required]
  · simp [sample_model, sampleModelFields, sample_field, sampleFieldDispatch,
      model_dimensions, field_dimensions, fieldDimsDispatch, outerS, innerS,
      ovLookup, extract_nested_overrides, numericCheckBoundedness,
      unboundedDims, unboundedSample, numericSample, findGe, findLe, pyInt,
      check_model_boundedness, check_field_boundedness, FieldInfo.md,
      FieldInfo.ann, FieldInfo.dflt, FieldInfo.dfac, FieldInfo.is_required]

/-- C1 (amended): under the strict allow_constants=False policy the two
traversals align for every schema and every overrides mapping: whenever
model_dimensions returns d, sample_model handed exactly d unit values
never raises the length-mismatch unpack error, and handed fewer than d it
deterministically fails. -/
theorem c1_alignment_allow_constants_false (s : Schema) (ovs : Overrides)
    (us : List ℚ) (d : Nat) (hd : model_dimensions s false ovs = .ok d) :
    (us.length = d → sample_model us s false ovs ≠ .error .unpackErr) ∧
    (us.length < d → ∃ e, sample_model us s false ovs = .error e) := by
  have h := sampleModelFields_alignment s ovs us d hd
  constructor
  · intro hlen hcon
    exact h.1 hlen ((sample_model_error_iff _ _ _ _ _).mp hcon)
  · intro hlen
    obtain ⟨e, he⟩ := h.2 hlen
    exact ⟨e, (sample_model_error_iff _ _ _ _ _).mpr he⟩

/-- C1 (witness): the two-float schema needs 2 unit values and sampling
it with exactly 2 values raises no length mismatch. -/
theorem c1_alignment_witness :
    model_dimensions demoS false [] = .ok 2 ∧
    sample_model [(1 : ℚ) / 4, (3 : ℚ) / 4] demoS false [] ≠
      .error .unpackErr := by
  have hdm : model_dimensions demoS false [] = .ok 2 := by
    simp [model_dimensions, field_dimensions, fieldDimsDispatch, demoS,
      ovLookup, extract_nested_overrides, numericCheckBoundedness,
      FieldInfo.md]
  exact ⟨hdm,
    (c1_alignment_allow_constants_false demoS [] [(1 : ℚ) / 4, (3 : ℚ) / 4]
      2 hdm).1 rfl⟩

end BoundedModels
